import Mathlib

/-!
Verification of the Cypher-pattern-to-SQL translator (`src/cypher_to_sql.rs`).

Rust strings are modelled as `List Char` (the claims live in the ASCII
fragment, where Rust's byte indices and character indices coincide and
`char::is_alphanumeric` agrees with `Char.isAlphanum`).  Rust functions that
can panic are given an explicit `Outcome` wrapper: `Outcome.panicked` marks
an out-of-bounds slice panic, `Outcome.returned` a normal return.  Fallible
functions return `Res`, mirroring Rust's `Result`.
-/

set_option maxRecDepth 8000

namespace CypherToSql

/-- Rust `str::trim`: drop whitespace from both ends. -/
def trimChars (s : List Char) : List Char :=
  ((s.dropWhile Char.isWhitespace).reverse.dropWhile Char.isWhitespace).reverse

/-- Everything after the first occurrence of `c`, mirroring
`s.find(c)` followed by the slice `&s[pos + 1..]`. -/
def afterFirst (c : Char) : List Char → Option (List Char)
  | [] => none
  | x :: xs => if x = c then some xs else afterFirst c xs

/-- Index of the first occurrence of `c`, mirroring Rust `str::find` on a
single-character pattern. -/
def firstIdxOf (c : Char) : List Char → Option Nat
  | [] => none
  | x :: xs => if x = c then some 0 else (firstIdxOf c xs).map (· + 1)

/-- Index of the last occurrence of `c`, mirroring Rust `str::rfind`. -/
def lastIdxOf (c : Char) (s : List Char) : Option Nat :=
  (firstIdxOf c s.reverse).map (fun k => s.length - 1 - k)

/-- Rust `str::split` on a single-character separator: always returns at
least one piece, keeps empty pieces. -/
def splitOnChar (c : Char) : List Char → List (List Char)
  | [] => [[]]
  | x :: xs =>
    if x = c then [] :: splitOnChar c xs
    else
      match splitOnChar c xs with
      | [] => [[x]]
      | y :: ys => (x :: y) :: ys

/-- Rust `char::to_ascii_lowercase`. -/
def asciiLower (c : Char) : Char :=
  if 'A' ≤ c && c ≤ 'Z' then Char.ofNat (c.toNat + 32) else c

/-- Rust `str::eq_ignore_ascii_case`. -/
def eqIgnoreAsciiCase (a b : List Char) : Bool :=
  a.map asciiLower == b.map asciiLower

/-- Numeric value of a digit string. -/
def digitsToNat (ds : List Char) : Nat :=
  ds.foldl (fun a c => a * 10 + (c.toNat - 48)) 0

/-- Shared body of Rust `i64::from_str` after an optional sign: all
remaining characters must be decimal digits, at least one, and the signed
value must fit in 64 bits. -/
def parseI64core (neg : Bool) (ds : List Char) : Option Int :=
  if ds.isEmpty || !ds.all Char.isDigit then none
  else
    let n : Int := if neg then -(digitsToNat ds : Int) else (digitsToNat ds : Int)
    if -(2 ^ 63) ≤ n ∧ n ≤ 2 ^ 63 - 1 then some n else none

/-- Rust `str::parse::<i64>`: optional `+`/`-` sign, then decimal digits,
rejecting anything else and values outside the 64-bit signed range. -/
def parseI64 (s : List Char) : Option Int :=
  match s with
  | '+' :: ds => parseI64core false ds
  | '-' :: ds => parseI64core true ds
  | ds => parseI64core false ds

/-- Decimal rendering of an integer, mirroring `i64`'s `Display`
(as used by `num.to_string()` in `parse_simple_value`). -/
def intDecimalRepr (n : Int) : List Char :=
  if n < 0 then '-' :: Nat.toDigits 10 n.natAbs else Nat.toDigits 10 n.natAbs

/-- Rust `Result`. -/
inductive Res (ε α : Type) where
  | err : ε → Res ε α
  | ok : α → Res ε α
deriving DecidableEq

/-- Outcome of running a Rust function that may panic: `panicked` marks an
uncatchable fault (out-of-bounds slice), `returned` a normal return. -/
inductive Outcome (α : Type) where
  | panicked : Outcome α
  | returned : α → Outcome α
deriving DecidableEq

/-- Fragment of `sqlparser::ast::Ident` used by the translator:
`Ident::new` always leaves `quote_style` empty, so only the name matters. -/
structure Ident where
  value : List Char
deriving DecidableEq

/-- Fragment of `sqlparser::ast::Value` constructed by the translator. -/
inductive Value where
  | singleQuotedString : List Char → Value
  | boolean : Bool → Value
  | number : List Char → Bool → Value
deriving DecidableEq

/-- Fragment of `sqlparser::ast::Expr` used by the translator. -/
inductive Expr where
  | value : Value → Expr
  | identifier : Ident → Expr
  | compoundIdentifier : List Ident → Expr
deriving DecidableEq

/-- Fragment of `sqlparser::ast::SelectItem`: the wildcard options are
always `default()` in this code, so the wildcard carries no payload. -/
inductive SelectItem where
  | unnamedExpr : Expr → SelectItem
  | exprWithAlias : Expr → Ident → SelectItem
  | wildcard : SelectItem
deriving DecidableEq

/-- Fragment of `sqlparser::ast::TableAlias` built in `cypher_to_sql`:
the column list is always empty. -/
structure TableAlias where
  name : Ident
deriving DecidableEq

/-- Fragment of `sqlparser::ast::TableFactor::Table` built in
`cypher_to_sql`: only the object name and the alias vary; every other
field is a constant (`None`, `vec![]`, `false`). -/
structure TableFactorTable where
  name : List Char
  tblAlias : Option TableAlias
deriving DecidableEq

/-- Fragment of `sqlparser::ast::Select` produced by `create_select`:
projection, the single FROM table, and the optional WHERE expression;
all remaining fields are constants in the source. -/
structure Select where
  projection : List SelectItem
  relation : TableFactorTable
  selection : Option Expr
deriving DecidableEq

/-- Fragment of `sqlparser::ast::Insert` produced by
`cypher_create_to_sql`: table object name, column list, and the VALUES
rows; every other field is a constant in the source. -/
structure InsertStmt where
  table : List Char
  columns : List Ident
  rows : List (List Expr)
deriving DecidableEq

/-- Fragment of `sqlparser::ast::Statement` produced by the translator. -/
inductive Statement where
  | query : Select → Statement
  | insert : InsertStmt → Statement
deriving DecidableEq

/-- Error values of the translator.  The source reports errors as strings;
each constructor stands for one distinct message:
`noLabelMissingColon` for the no-colon message of `extract_first_label`,
`noLabelAfterColon` for its empty-label message,
`noPropsMissingOpenBrace` and `noPropsMissingCloseBrace` for the two
missing-brace messages of `extract_properties`,
`invalidPropertySyntax` for its inverted-brace message, and
`noPropertiesInCreate` for the empty-column message of
`cypher_create_to_sql`. -/
inductive TranslateError where
  | noLabelMissingColon
  | noLabelAfterColon
  | noPropsMissingOpenBrace
  | noPropsMissingCloseBrace
  | invalidPropertySyntax
  | noPropertiesInCreate
deriving DecidableEq

/-- Characters accepted into a label or variable by the source's
`take_while(|c| c.is_alphanumeric() || *c == '_')`. -/
def isIdentChar (c : Char) : Bool :=
  c.isAlphanum || c == '_'

/-- Embedding of `extract_first_label`: take the identifier run after the
first `:` of the pattern, after skipping leading whitespace. -/
def extract_first_label (pattern : List Char) : Res TranslateError (List Char) :=
  match afterFirst ':' pattern with
  | none => .err .noLabelMissingColon
  | some after_colon =>
    let trimmed := after_colon.dropWhile Char.isWhitespace
    let label := trimmed.takeWhile isIdentChar
    if label.isEmpty then .err .noLabelAfterColon else .ok label

/-- Embedding of `extract_first_variable`: take the identifier run after
the first `(` of the pattern, after skipping leading whitespace. -/
def extract_first_variable (pattern : List Char) : Option (List Char) :=
  match afterFirst '(' pattern with
  | none => none
  | some after_paren =>
    let trimmed := after_paren.dropWhile Char.isWhitespace
    let var := trimmed.takeWhile isIdentChar
    if var.isEmpty then none else some var

/-- The quoted-literal test of `parse_simple_value`:
`value.starts_with(q) && value.ends_with(q)`. -/
def isQuotePair (value : List Char) (q : Char) : Bool :=
  (value.head? == some q) && (value.getLast? == some q)

/-- Body of `parse_simple_value` after its initial `let value =
value.trim()`.  The source slices `&value[1..value.len() - 1]` whenever
the quote test succeeds; when the trimmed value is a single quote
character that slice is out of bounds and Rust panics, modelled by
`Outcome.panicked`.  Every terminating path of the source returns `Ok`,
so the payload is a plain `Expr`. -/
def parse_simple_value_trimmed (value : List Char) : Outcome Expr :=
  if isQuotePair value '\x27' || isQuotePair value '"' then
    if value.length < 2 then .panicked
    else .returned (.value (.singleQuotedString ((value.drop 1).dropLast)))
  else if eqIgnoreAsciiCase value ['t', 'r', 'u', 'e'] then
    .returned (.value (.boolean true))
  else if eqIgnoreAsciiCase value ['f', 'a', 'l', 's', 'e'] then
    .returned (.value (.boolean false))
  else
    match parseI64 value with
    | some n => .returned (.value (.number (intDecimalRepr n) false))
    | none => .returned (.identifier ⟨value⟩)

/-- Embedding of `parse_simple_value`: trim, then coerce. -/
def parse_simple_value (value0 : List Char) : Outcome Expr :=
  parse_simple_value_trimmed (trimChars value0)

/-- Embedding of the `for pair in props_str.split(',')` loop of
`extract_properties`: split each pair on `:`, trim the parts, skip the
pair when it does not have exactly two parts (the source's `continue`),
otherwise push the key and the parsed value. -/
def extract_properties_loop : List (List Char) → Outcome (List Ident × List Expr)
  | [] => .returned ([], [])
  | pair :: rest =>
    match (splitOnChar ':' pair).map trimChars with
    | [p0, p1] =>
      match parse_simple_value (trimChars p1) with
      | .panicked => .panicked
      | .returned e =>
        match extract_properties_loop rest with
        | .panicked => .panicked
        | .returned (cs, vs) => .returned (⟨trimChars p0⟩ :: cs, e :: vs)
    | _ => extract_properties_loop rest

/-- Embedding of `extract_properties`: locate the span between the first
`\x7b` and the last `\x7d`, reject inverted spans, accept an empty span as
zero properties, and otherwise run the pair loop on the comma-split span. -/
def extract_properties (pattern : List Char) :
    Outcome (Res TranslateError (List Ident × List Expr)) :=
  match firstIdxOf '\x7b' pattern with
  | none => .returned (.err .noPropsMissingOpenBrace)
  | some start =>
    match lastIdxOf '\x7d' pattern with
    | none => .returned (.err .noPropsMissingCloseBrace)
    | some stop =>
      if start ≥ stop then .returned (.err .invalidPropertySyntax)
      else
        if (trimChars ((pattern.drop (start + 1)).take (stop - (start + 1)))).isEmpty then
          .returned (.ok ([], []))
        else
          match extract_properties_loop (splitOnChar ','
              (trimChars ((pattern.drop (start + 1)).take (stop - (start + 1))))) with
          | .panicked => .panicked
          | .returned (cs, vs) => .returned (.ok (cs, vs))

/-- Embedding of `convert_return_items`: any unnamed bare identifier
becomes a wildcard, everything else is cloned unchanged. -/
def convert_return_items (return_items : List SelectItem) : List SelectItem :=
  return_items.map fun item =>
    match item with
    | .unnamedExpr (.identifier _) => .wildcard
    | .wildcard => item
    | _ => item

/-- Embedding of `create_select`: only projection, FROM and WHERE vary. -/
def create_select (projection : List SelectItem) (relation : TableFactorTable)
    (selection : Option Expr) : Select :=
  ⟨projection, relation, selection⟩

/-- Embedding of `cypher_to_sql` (the match translator): extract the label
as table name and the variable as alias, convert the return items, and
assemble the SELECT.  No path of this function can panic. -/
def cypher_to_sql (pattern : List Char) (where_clause : Option Expr)
    (return_items : List SelectItem) : Res TranslateError Statement :=
  match extract_first_label pattern with
  | .err e => .err e
  | .ok table_name =>
    let table_alias := (extract_first_variable pattern).map fun v => TableAlias.mk ⟨v⟩
    let from_table : TableFactorTable := ⟨table_name, table_alias⟩
    let sql_projection := convert_return_items return_items
    .ok (.query (create_select sql_projection from_table where_clause))

/-- Embedding of `cypher_create_to_sql` (the create translator): extract
the label, extract the properties, reject an empty column list, and
assemble the INSERT with a single VALUES row. -/
def cypher_create_to_sql (pattern : List Char) :
    Outcome (Res TranslateError Statement) :=
  match extract_first_label pattern with
  | .err e => .returned (.err e)
  | .ok table_name =>
    match extract_properties pattern with
    | .panicked => .panicked
    | .returned (.err e) => .returned (.err e)
    | .returned (.ok (columns, values)) =>
      if columns.isEmpty then .returned (.err .noPropertiesInCreate)
      else .returned (.ok (.insert ⟨table_name, columns, [values]⟩))

/-- Error taxonomy of spec section 7. -/
inductive ErrorKind where
  | missingLabel
  | noProperties
  | parseError
deriving DecidableEq

/-- Modelled from the spec: section 7's classification of the source's
error messages into the spec's error kinds — the two label messages are
`MissingLabel`, the three no-property messages are `NoProperties`, and the
inverted-brace message is a grammar violation, hence `ParseError`. -/
def errKind : TranslateError → ErrorKind
  | .noLabelMissingColon => .missingLabel
  | .noLabelAfterColon => .missingLabel
  | .noPropsMissingOpenBrace => .noProperties
  | .noPropsMissingCloseBrace => .noProperties
  | .noPropertiesInCreate => .noProperties
  | .invalidPropertySyntax => .parseError

/-- Kinds of coerced values named by spec section 4.3. -/
inductive CoercionKind where
  | string
  | boolean
  | integer
  | float
  | identifierRef
deriving DecidableEq

/-- Modelled from the spec: a literal "parseable as a floating-point
number" (section 4.3) — an optional sign, a mantissa of digits holding at
most one decimal point and at least one digit, and an optional exponent. -/
def isFloatLiteral (s0 : List Char) : Bool :=
  let s := match s0 with
    | c :: r => if c = '+' || c = '-' then r else s0
    | [] => []
  let mant := s.takeWhile (fun c => c.isDigit || c == '.')
  let rest := s.dropWhile (fun c => c.isDigit || c == '.')
  (mant.any Char.isDigit) && (mant.count '.' ≤ 1) &&
    (match rest with
     | [] => true
     | e :: es =>
       (e == 'e' || e == 'E') &&
         (let es2 := match es with
            | c :: r => if c = '+' || c = '-' then r else es
            | [] => []
          !es2.isEmpty && es2.all Char.isDigit))

/-- The side of a quoted literal used by spec coercion: at least two
characters with matching quote characters at both ends. -/
def isQuotedLiteral (v : List Char) : Bool :=
  decide (2 ≤ v.length) && (isQuotePair v '\x27' || isQuotePair v '"')

/-- Modelled from the spec: the first-match-wins coercion order of
section 4.3 — quoted literal, boolean, 64-bit integer, float, identifier
reference — reporting only the kind of the coerced value. -/
def coercion_kind_spec (v : List Char) : CoercionKind :=
  if isQuotedLiteral v then .string
  else if eqIgnoreAsciiCase v ['t', 'r', 'u', 'e'] ||
          eqIgnoreAsciiCase v ['f', 'a', 'l', 's', 'e'] then .boolean
  else if (parseI64 v).isSome then .integer
  else if isFloatLiteral v then .float
  else .identifierRef

/-- Kind of value actually produced by the source's coercion, for
comparison with `coercion_kind_spec`. -/
def exprCoercionKind : Expr → CoercionKind
  | .value (.singleQuotedString _) => .string
  | .value (.boolean _) => .boolean
  | .value (.number _ _) => .integer
  | .identifier _ => .identifierRef
  | .compoundIdentifier _ => .identifierRef

/-- Printing of an identifier chain, joined with periods. -/
def printIdents : List Ident → List Char
  | [] => []
  | [i] => i.value
  | i :: rest => i.value ++ '.' :: printIdents rest

/-- Modelled from the spec: the external statement printer's rendering of
the value fragment used here (single quotes around strings, `true`/`false`
for booleans, the stored digits for numbers). -/
def printValue : Value → List Char
  | .singleQuotedString s => '\x27' :: s ++ ['\x27']
  | .boolean true => ['t', 'r', 'u', 'e']
  | .boolean false => ['f', 'a', 'l', 's', 'e']
  | .number s _ => s

/-- Modelled from the spec: the external printer's rendering of the
expression fragment used here. -/
def printExpr : Expr → List Char
  | .value v => printValue v
  | .identifier i => i.value
  | .compoundIdentifier is => printIdents is

/-- Modelled from the spec: the external printer's rendering of a
projection item. -/
def printSelectItem : SelectItem → List Char
  | .wildcard => ['*']
  | .unnamedExpr e => printExpr e
  | .exprWithAlias e a => printExpr e ++ ' ' :: 'A' :: 'S' :: ' ' :: a.value

/-- Comma-with-space separated concatenation, as the printer joins lists. -/
def joinCommaSep : List (List Char) → List Char
  | [] => []
  | [x] => x
  | x :: rest => x ++ ',' :: ' ' :: joinCommaSep rest

/-- Modelled from the spec: the external relational-statement printer
(section 4.5's collaborator, out of `src/`), restricted to the statement
fragment the translator emits — `SELECT {projection} FROM {table}
[AS {alias}] [WHERE {filter}]` and `INSERT INTO {table} ({columns})
VALUES ({row})`. -/
def printStatement : Statement → List Char
  | .query s =>
    "SELECT ".data ++ joinCommaSep (s.projection.map printSelectItem) ++
      " FROM ".data ++ s.relation.name ++
      (match s.relation.tblAlias with
       | none => []
       | some a => " AS ".data ++ a.name.value) ++
      (match s.selection with
       | none => []
       | some e => " WHERE ".data ++ printExpr e)
  | .insert i =>
    "INSERT INTO ".data ++ i.table ++
      " (".data ++ joinCommaSep (i.columns.map Ident.value) ++ ") VALUES ".data ++
      joinCommaSep (i.rows.map fun row => '(' :: joinCommaSep (row.map printExpr) ++ [')'])

/-- Well-formed identifier text for variables, labels and keys: nonempty
and made of the characters the source's identifier scan accepts. -/
def identOk (s : List Char) : Bool :=
  !s.isEmpty && s.all isIdentChar

/-- Characters allowed inside a well-formed simple value literal: no
separators, no braces, no whitespace, so the ad-hoc splitting of the
source never cuts a value apart. -/
def simpleValueChar (c : Char) : Bool :=
  !(c == ',') && !(c == ':') && !(c == '\x7b') && !(c == '\x7d') && !c.isWhitespace

/-- Well-formed simple value literal: nonempty, made of allowed
characters, and not a lone quote character. -/
def simpleValueOk (v : List Char) : Bool :=
  !v.isEmpty && v.all simpleValueChar &&
    (match v with
     | [c] => !(c == '\x27' || c == '"')
     | _ => true)

/-- Text of one `key: value` pair as it appears in a property map. -/
def renderPair (kv : List Char × List Char) : List Char :=
  kv.1 ++ ':' :: ' ' :: kv.2

/-- Text of a property list, pairs joined by a comma and a space. -/
def renderProps : List (List Char × List Char) → List Char
  | [] => []
  | [kv] => renderPair kv
  | kv :: rest => renderPair kv ++ ',' :: ' ' :: renderProps rest

/-- Text of a single-node create pattern
`(var:Label \x7bk1: v1, ...\x7d)`. -/
def mkCreatePattern (var label : List Char) (kvs : List (List Char × List Char)) :
    List Char :=
  '(' :: var ++ ':' :: label ++ ' ' :: '\x7b' :: renderProps kvs ++ ['\x7d', ')']

/-- Text of a single-node match pattern `(var:Label)` or `(:Label)`. -/
def mkMatchPattern (var : Option (List Char)) (label : List Char) : List Char :=
  '(' :: (match var with | some v => v | none => []) ++ ':' :: label ++ [')']

/-- The expression `parse_simple_value` returns when it does not panic
(the panic branch is mapped to an arbitrary default, ruled out separately
wherever this helper is used). -/
def parsedValue (v : List Char) : Expr :=
  match parse_simple_value v with
  | .returned e => e
  | .panicked => .identifier ⟨v⟩

theorem identOk_parts (s : List Char) (h : identOk s = true) :
    s ≠ [] ∧ ∀ x ∈ s, isIdentChar x = true := by
  unfold identOk at h
  rw [Bool.and_eq_true] at h
  refine ⟨?_, List.all_eq_true.mp h.2⟩
  intro hs
  subst hs
  simp at h

theorem identChar_ne (c : Char) (h : isIdentChar c = true) (d : Char)
    (hd : isIdentChar d = false) : c ≠ d := by
  intro he
  rw [he, hd] at h
  cases h

theorem ws_char_cases (c : Char) (h : c.isWhitespace = true) :
    c = ' ' ∨ c = '\t' ∨ c = '\r' ∨ c = '\n' := by
  have h2 := h
  unfold Char.isWhitespace at h2
  simp only [Bool.or_eq_true, decide_eq_true_eq] at h2
  tauto

theorem identChar_not_ws (c : Char) (h : isIdentChar c = true) :
    c.isWhitespace = false := by
  cases hw : c.isWhitespace with
  | false => rfl
  | true =>
    rcases ws_char_cases c hw with rfl | rfl | rfl | rfl <;>
      exact absurd h (by decide)

theorem simpleValueChar_parts (c : Char) (h : simpleValueChar c = true) :
    c ≠ ',' ∧ c ≠ ':' ∧ c ≠ '\x7b' ∧ c ≠ '\x7d' ∧ c.isWhitespace = false := by
  unfold simpleValueChar at h
  simp only [Bool.and_eq_true, Bool.not_eq_true', beq_eq_false_iff_ne, ne_eq] at h
  exact ⟨h.1.1.1.1, h.1.1.1.2, h.1.1.2, h.1.2, h.2⟩

theorem simpleValueOk_parts (v : List Char) (h : simpleValueOk v = true) :
    v ≠ [] ∧ (∀ x ∈ v, simpleValueChar x = true) ∧
      v ≠ ['\x27'] ∧ v ≠ ['"'] := by
  unfold simpleValueOk at h
  rw [Bool.and_eq_true, Bool.and_eq_true] at h
  obtain ⟨⟨h1, h2⟩, h3⟩ := h
  refine ⟨?_, List.all_eq_true.mp h2, ?_, ?_⟩
  · intro hv; subst hv; simp at h1
  · intro hv; subst hv; simp at h3
  · intro hv; subst hv; simp at h3

theorem dropWhile_eq_self_of_head (p : Char → Bool) (s : List Char)
    (h : ∀ x ∈ s.head?, p x = false) : s.dropWhile p = s := by
  cases s with
  | nil => rfl
  | cons x xs => simp [List.dropWhile_cons, h x rfl]

theorem takeWhile_append_head (p : Char → Bool) (a b : List Char)
    (ha : ∀ x ∈ a, p x = true) (hb : ∀ y ∈ b.head?, p y = false) :
    (a ++ b).takeWhile p = a := by
  induction a with
  | nil =>
    cases b with
    | nil => rfl
    | cons y ys => simp [List.takeWhile_cons, hb y rfl]
  | cons x xs ih =>
    rw [List.cons_append, List.takeWhile_cons,
      if_pos (ha x (List.mem_cons_self x xs)),
      ih (fun z hz => ha z (List.mem_cons_of_mem x hz))]

theorem trimChars_eq_self (s : List Char)
    (h1 : ∀ x ∈ s.head?, x.isWhitespace = false)
    (h2 : ∀ x ∈ s.getLast?, x.isWhitespace = false) :
    trimChars s = s := by
  unfold trimChars
  rw [dropWhile_eq_self_of_head _ _ h1]
  rw [dropWhile_eq_self_of_head _ _ (by rw [List.head?_reverse]; exact h2)]
  exact List.reverse_reverse s

theorem trimChars_all_nonws (s : List Char)
    (h : ∀ x ∈ s, x.isWhitespace = false) : trimChars s = s :=
  trimChars_eq_self s
    (fun x hx => h x (List.mem_of_mem_head? hx))
    (fun x hx => h x (by
      rw [← List.head?_reverse] at hx
      exact List.mem_reverse.mp (List.mem_of_mem_head? hx)))

theorem trimChars_cons_space (s : List Char) :
    trimChars (' ' :: s) = trimChars s := by
  unfold trimChars
  rw [List.dropWhile_cons]
  simp

theorem afterFirst_append_not_mem (c : Char) (pre post : List Char)
    (h : ∀ x ∈ pre, x ≠ c) : afterFirst c (pre ++ c :: post) = some post := by
  induction pre with
  | nil => simp [afterFirst]
  | cons x xs ih =>
    have hx : x ≠ c := h x (List.mem_cons_self x xs)
    simp only [List.cons_append, afterFirst, if_neg hx]
    exact ih (fun y hy => h y (List.mem_cons_of_mem x hy))

theorem firstIdxOf_append_not_mem (c : Char) (pre post : List Char)
    (h : ∀ x ∈ pre, x ≠ c) :
    firstIdxOf c (pre ++ c :: post) = some pre.length := by
  induction pre with
  | nil => simp [firstIdxOf]
  | cons x xs ih =>
    have hx : x ≠ c := h x (List.mem_cons_self x xs)
    have ih2 := ih (fun y hy => h y (List.mem_cons_of_mem x hy))
    show (if x = c then some 0
      else (firstIdxOf c (xs ++ c :: post)).map (· + 1)) = some (x :: xs).length
    rw [if_neg hx, ih2]
    rfl

theorem lastIdxOf_append_not_mem (c : Char) (pre post : List Char)
    (h : ∀ x ∈ post, x ≠ c) :
    lastIdxOf c (pre ++ c :: post) = some pre.length := by
  unfold lastIdxOf
  have hrev : (pre ++ c :: post).reverse = post.reverse ++ c :: pre.reverse := by
    simp
  rw [hrev, firstIdxOf_append_not_mem c post.reverse pre.reverse
    (fun x hx => h x (List.mem_reverse.mp hx))]
  simp only [Option.map_some']
  congr 1
  simp only [List.length_append, List.length_cons, List.length_reverse]
  omega

theorem splitOnChar_not_mem (c : Char) (s : List Char)
    (h : ∀ x ∈ s, x ≠ c) : splitOnChar c s = [s] := by
  induction s with
  | nil => rfl
  | cons x xs ih =>
    have hx : x ≠ c := h x (List.mem_cons_self x xs)
    have ih2 := ih (fun y hy => h y (List.mem_cons_of_mem x hy))
    simp [splitOnChar, hx, ih2]

theorem splitOnChar_append (c : Char) (a b : List Char)
    (h : ∀ x ∈ a, x ≠ c) :
    splitOnChar c (a ++ c :: b) = a :: splitOnChar c b := by
  induction a with
  | nil => simp [splitOnChar]
  | cons x xs ih =>
    have hx : x ≠ c := h x (List.mem_cons_self x xs)
    have ih2 := ih (fun y hy => h y (List.mem_cons_of_mem x hy))
    simp [splitOnChar, hx, ih2]

/-- Claim C2, code behavior at the failing input: the pattern
`(n \x7bage: 30\x7d)` carries zero labels, yet `extract_first_label` picks
up the colon of the property map and reads the digits `30` as a label, so
both translators produce a statement over the table `30` instead of
failing with a missing-label error. -/
theorem C2_zero_label_pattern_translated :
    cypher_create_to_sql "(n \x7bage: 30\x7d)".data =
      .returned (.ok (.insert ⟨"30".data, [⟨"age".data⟩],
        [[.value (.number "30".data false)]]⟩)) ∧
    cypher_to_sql "(n \x7bage: 30\x7d)".data none [] =
      .ok (.query ⟨[], ⟨"30".data, some ⟨⟨"n".data⟩⟩⟩, none⟩) :=
  ⟨rfl, rfl⟩

/-- Claim C5, code behavior at the failing input: in the create pattern
`(n:Person \x7bname, age: 30\x7d)` the malformed pair `name` has no
colon-separated value, and the source's `continue` silently drops it — the
translation succeeds with only the `age` column instead of failing with a
parse error. -/
theorem C5_malformed_pair_silently_dropped :
    cypher_create_to_sql "(n:Person \x7bname, age: 30\x7d)".data =
      .returned (.ok (.insert ⟨"Person".data, [⟨"age".data⟩],
        [[.value (.number "30".data false)]]⟩)) :=
  rfl

/-- Claim C6, code behavior at the failing input: the source's coercion
has no floating-point step, so the decimal literal `3.14` falls through to
a bare identifier reference, while the spec's section 4.3 order classifies
it as a float; the string, boolean and integer steps behave as claimed. -/
theorem C6_decimal_literal_not_float :
    parse_simple_value "3.14".data = .returned (.identifier ⟨"3.14".data⟩) ∧
    coercion_kind_spec "3.14".data = CoercionKind.float ∧
    exprCoercionKind (.identifier ⟨"3.14".data⟩) ≠ CoercionKind.float ∧
    parse_simple_value "\x27Alice\x27".data =
      .returned (.value (.singleQuotedString "Alice".data)) ∧
    parse_simple_value "true".data = .returned (.value (.boolean true)) ∧
    parse_simple_value "30".data = .returned (.value (.number "30".data false)) := by
  refine ⟨rfl, rfl, ?_, rfl, rfl, rfl⟩
  decide

/-- Claim C8, code behavior at the failing input: on the create pattern
`(n:Person \x7bk: \x27\x7d)` the property value is a lone quote character,
the quote test of `parse_simple_value` succeeds, and the slice
`value[1..0]` is out of bounds — the translation panics instead of
returning a typed result. -/
theorem C8_lone_quote_value_panics :
    cypher_create_to_sql "(n:Person \x7bk: \x27\x7d)".data = Outcome.panicked :=
  rfl

/-- Claim C9, code behavior at the failing input: value coercion is not
total — `parse_simple_value` panics on a lone single or double quote
character instead of returning a value. -/
theorem C9_coercion_panics_on_lone_quote :
    parse_simple_value ['\x27'] = Outcome.panicked ∧
    parse_simple_value ['"'] = Outcome.panicked ∧
    parse_simple_value "abc".data = .returned (.identifier ⟨"abc".data⟩) :=
  ⟨rfl, rfl, rfl⟩

/-- Claim C1, counterexample: three well-formed create patterns on which
the claim as stated fails.  `(n:Person \x7bx: 3.14\x7d)` is translated to
an INSERT whose value is a bare identifier reference `3.14`, while the
coercion rules of spec section 4.3 classify the literal `3.14` as a float.
`(n:Person \x7bname: \x27Alice,Bob\x27\x7d)` holds a quoted literal with
a comma: the comma split cuts it apart and the value is mangled to the
bare identifier `\x27Alice` instead of a String coerced from the quoted
literal.  `(n:Person \x7bk: \x27a:b\x27\x7d)` holds a quoted literal with
a colon: the colon split gives three parts, the pair is dropped, and the
translation errors with the no-properties message instead of returning
the claimed Insert. -/
theorem C1_float_value_not_coerced_per_spec :
    (cypher_create_to_sql "(n:Person \x7bx: 3.14\x7d)".data =
      .returned (.ok (.insert ⟨"Person".data, [⟨"x".data⟩],
        [[.identifier ⟨"3.14".data⟩]]⟩)) ∧
    coercion_kind_spec "3.14".data = CoercionKind.float ∧
    exprCoercionKind (Expr.identifier ⟨"3.14".data⟩) ≠ CoercionKind.float) ∧
    (cypher_create_to_sql "(n:Person \x7bname: \x27Alice,Bob\x27\x7d)".data =
      .returned (.ok (.insert ⟨"Person".data, [⟨"name".data⟩],
        [[.identifier ⟨"\x27Alice".data⟩]]⟩)) ∧
    coercion_kind_spec "\x27Alice,Bob\x27".data = CoercionKind.string ∧
    exprCoercionKind (Expr.identifier ⟨"\x27Alice".data⟩) ≠
      CoercionKind.string) ∧
    cypher_create_to_sql "(n:Person \x7bk: \x27a:b\x27\x7d)".data =
      .returned (.err .noPropertiesInCreate) := by
  refine ⟨⟨rfl, rfl, ?_⟩, ⟨rfl, rfl, ?_⟩, rfl⟩ <;> decide

/-- Claim C3, counterexample: the create pattern `(n)` has an absent
property map, but the translation fails with the missing-label error (the
label check runs first), not with a no-properties error. -/
theorem C3_no_label_error_precedes_no_properties :
    cypher_create_to_sql "(n)".data =
      .returned (.err TranslateError.noLabelMissingColon) ∧
    errKind TranslateError.noLabelMissingColon ≠ ErrorKind.noProperties := by
  refine ⟨rfl, ?_⟩
  decide

/-- Claim C4, counterexample: for the pattern `(n:Person)`, the projection
item that is a bare reference to `m` — an identifier that is not the
pattern's variable `n` — is expanded to a wildcard instead of passing
through unchanged. -/
theorem C4_foreign_identifier_becomes_wildcard :
    cypher_to_sql "(n:Person)".data none [.unnamedExpr (.identifier ⟨['m']⟩)] =
      .ok (.query ⟨[.wildcard], ⟨"Person".data, some ⟨⟨['n']⟩⟩⟩, none⟩) ∧
    (['m'] : List Char) ≠ ['n'] ∧
    SelectItem.wildcard ≠ SelectItem.unnamedExpr (.identifier ⟨['m']⟩) := by
  refine ⟨rfl, ?_, ?_⟩ <;> decide

theorem extract_first_label_of_shape (pre label rest : List Char)
    (hpre : ∀ x ∈ pre, x ≠ ':')
    (hlab : identOk label = true)
    (hrest : ∀ x ∈ rest.head?, isIdentChar x = false) :
    extract_first_label (pre ++ ':' :: (label ++ rest)) = .ok label := by
  obtain ⟨hne, hall⟩ := identOk_parts label hlab
  cases label with
  | nil => exact absurd rfl hne
  | cons l0 ls =>
    have hdrop : ((l0 :: ls) ++ rest).dropWhile Char.isWhitespace =
        (l0 :: ls) ++ rest := by
      apply dropWhile_eq_self_of_head
      intro x hx
      have hx0 : l0 = x := by simpa using hx
      subst hx0
      exact identChar_not_ws _ (hall _ (List.mem_cons_self _ _))
    have htake : ((l0 :: ls) ++ rest).takeWhile isIdentChar = l0 :: ls :=
      takeWhile_append_head _ _ _ hall hrest
    unfold extract_first_label
    rw [afterFirst_append_not_mem ':' pre _ hpre]
    simp only [hdrop, htake, List.isEmpty_cons]
    rfl

theorem extract_first_variable_of_shape (var rest : List Char)
    (hvar : identOk var = true)
    (hrest : ∀ x ∈ rest.head?, isIdentChar x = false) :
    extract_first_variable ('(' :: (var ++ rest)) = some var := by
  obtain ⟨hne, hall⟩ := identOk_parts var hvar
  cases var with
  | nil => exact absurd rfl hne
  | cons v0 vs =>
    have hdrop : ((v0 :: vs) ++ rest).dropWhile Char.isWhitespace =
        (v0 :: vs) ++ rest := by
      apply dropWhile_eq_self_of_head
      intro x hx
      have hx0 : v0 = x := by simpa using hx
      subst hx0
      exact identChar_not_ws _ (hall _ (List.mem_cons_self _ _))
    have htake : ((v0 :: vs) ++ rest).takeWhile isIdentChar = v0 :: vs :=
      takeWhile_append_head _ _ _ hall hrest
    unfold extract_first_variable
    have h1 : afterFirst '(' ('(' :: ((v0 :: vs) ++ rest)) =
        some ((v0 :: vs) ++ rest) := by
      simp [afterFirst]
    rw [h1]
    simp only [hdrop, htake, List.isEmpty_cons]
    rfl

theorem extract_first_variable_none_of_shape (rest : List Char)
    (h : ∀ x ∈ rest.head?, x.isWhitespace = false ∧ isIdentChar x = false) :
    extract_first_variable ('(' :: rest) = none := by
  unfold extract_first_variable
  have h1 : afterFirst '(' ('(' :: rest) = some rest := by simp [afterFirst]
  rw [h1]
  have hdrop : rest.dropWhile Char.isWhitespace = rest :=
    dropWhile_eq_self_of_head _ _ (fun x hx => (h x hx).1)
  have htake : rest.takeWhile isIdentChar = [] := by
    cases rest with
    | nil => rfl
    | cons r0 rs => simp [List.takeWhile_cons, (h r0 rfl).2]
  simp only [hdrop, htake, List.isEmpty_nil]
  rfl

theorem parse_trimmed_panic (w : List Char)
    (h : parse_simple_value_trimmed w = .panicked) :
    w = ['\x27'] ∨ w = ['"'] := by
  unfold parse_simple_value_trimmed at h
  split at h
  · split at h
    · rename_i hq hlen
      cases w with
      | nil => simp [isQuotePair] at hq
      | cons c cs =>
        cases cs with
        | nil =>
          simp [isQuotePair] at hq
          rcases hq with rfl | rfl
          · exact Or.inl rfl
          · exact Or.inr rfl
        | cons d ds => simp at hlen; omega
    · cases h
  · split at h
    · cases h
    · split at h
      · cases h
      · split at h <;> cases h

theorem parse_simple_value_returns (v : List Char)
    (h1 : trimChars v ≠ ['\x27']) (h2 : trimChars v ≠ ['"']) :
    parse_simple_value v = .returned (parsedValue v) := by
  rcases hpv : parse_simple_value v with _ | e
  · exfalso
    have hp : parse_simple_value_trimmed (trimChars v) = .panicked := hpv
    rcases parse_trimmed_panic _ hp with h | h
    · exact absurd h h1
    · exact absurd h h2
  · rw [parsedValue, hpv]

theorem mem_of_mem_getLast (x : Char) (l : List Char) (h : x ∈ l.getLast?) :
    x ∈ l := by
  rw [← List.head?_reverse] at h
  exact List.mem_reverse.mp (List.mem_of_mem_head? h)

theorem getLast?_cons_ne (a : Char) (l : List Char) (h : l ≠ []) :
    (a :: l).getLast? = l.getLast? := by
  have he : a :: l = [a] ++ l := rfl
  rw [he, List.getLast?_append_of_ne_nil _ h]

theorem renderProps_ne_nil (kvs : List (List Char × List Char))
    (hne : kvs ≠ []) : renderProps kvs ≠ [] := by
  cases kvs with
  | nil => exact absurd rfl hne
  | cons kv rest =>
    cases rest with
    | nil => simp [renderProps, renderPair]
    | cons kv2 rest2 => simp [renderProps, renderPair]

theorem renderProps_head_nonws (kvs : List (List Char × List Char))
    (hkeys : ∀ kv ∈ kvs, identOk kv.1 = true) :
    ∀ x ∈ (renderProps kvs).head?, x.isWhitespace = false := by
  intro x hx
  cases kvs with
  | nil => simp [renderProps] at hx
  | cons kv rest =>
    obtain ⟨hne, hall⟩ := identOk_parts kv.1 (hkeys kv (List.mem_cons_self _ _))
    cases hk : kv.1 with
    | nil => exact absurd hk hne
    | cons c ks =>
      have hx0 : c = x := by
        cases rest with
        | nil => simp [renderProps, renderPair, hk] at hx; exact hx
        | cons kv2 rest2 => simp [renderProps, renderPair, hk] at hx; exact hx
      subst hx0
      exact identChar_not_ws _ (hall _ (by rw [hk]; exact List.mem_cons_self _ _))

theorem renderProps_last_nonws (kvs : List (List Char × List Char))
    (hvals : ∀ kv ∈ kvs, simpleValueOk kv.2 = true) :
    ∀ x ∈ (renderProps kvs).getLast?, x.isWhitespace = false := by
  induction kvs with
  | nil => intro x hx; simp [renderProps] at hx
  | cons kv rest ih =>
    intro x hx
    cases rest with
    | nil =>
      obtain ⟨hvne, hvall, _, _⟩ :=
        simpleValueOk_parts kv.2 (hvals kv (List.mem_cons_self _ _))
      have he : renderProps [kv] = kv.1 ++ ':' :: ' ' :: kv.2 := rfl
      rw [he, List.getLast?_append_of_ne_nil _ (by simp),
        getLast?_cons_ne _ _ (by simp), getLast?_cons_ne _ _ hvne] at hx
      exact (simpleValueChar_parts x (hvall x (mem_of_mem_getLast x _ hx))).2.2.2.2
    | cons kv2 rest2 =>
      have hpne : renderProps (kv2 :: rest2) ≠ [] := renderProps_ne_nil _ (by simp)
      have he : renderProps (kv :: kv2 :: rest2) =
          renderPair kv ++ ',' :: ' ' :: renderProps (kv2 :: rest2) := rfl
      rw [he, List.getLast?_append_of_ne_nil _ (by simp),
        getLast?_cons_ne _ _ (by simp), getLast?_cons_ne _ _ hpne] at hx
      exact ih (fun z hz => hvals z (List.mem_cons_of_mem kv hz)) x hx

theorem simpleValue_all_nonws (v : List Char)
    (hv : simpleValueOk v = true) : ∀ x ∈ v, x.isWhitespace = false :=
  fun x hx =>
    (simpleValueChar_parts x ((simpleValueOk_parts v hv).2.1 x hx)).2.2.2.2

theorem ident_all_nonws (k : List Char) (hk : identOk k = true) :
    ∀ x ∈ k, x.isWhitespace = false :=
  fun x hx => identChar_not_ws x ((identOk_parts k hk).2 x hx)

theorem chunk_split (sp k v : List Char)
    (hsp : sp = [] ∨ sp = [' '])
    (hk : identOk k = true) (hv : simpleValueOk v = true) :
    (splitOnChar ':' (sp ++ (k ++ ':' :: ' ' :: v))).map trimChars = [k, v] := by
  obtain ⟨hkne, hkall⟩ := identOk_parts k hk
  obtain ⟨hvne, hvall, _, _⟩ := simpleValueOk_parts v hv
  have hnc : ∀ x ∈ sp ++ k, x ≠ ':' := by
    intro x hx
    rcases List.mem_append.mp hx with hx | hx
    · rcases hsp with rfl | rfl
      · simp at hx
      · have hx0 : x = ' ' := by simpa using hx
        subst hx0; decide
    · exact identChar_ne x (hkall x hx) ':' (by decide)
  have hshape : sp ++ (k ++ ':' :: ' ' :: v) = (sp ++ k) ++ ':' :: (' ' :: v) := by
    simp
  have hsplit2 : splitOnChar ':' (' ' :: v) = [' ' :: v] := by
    apply splitOnChar_not_mem
    intro x hx
    rcases List.mem_cons.mp hx with rfl | hx
    · decide
    · exact (simpleValueChar_parts x (hvall x hx)).2.1
  rw [hshape, splitOnChar_append ':' (sp ++ k) (' ' :: v) hnc, hsplit2]
  have ht1 : trimChars (sp ++ k) = k := by
    rcases hsp with rfl | rfl
    · exact trimChars_all_nonws k (ident_all_nonws k hk)
    · show trimChars (' ' :: k) = k
      rw [trimChars_cons_space]
      exact trimChars_all_nonws k (ident_all_nonws k hk)
  have ht2 : trimChars (' ' :: v) = v := by
    rw [trimChars_cons_space]
    exact trimChars_all_nonws v (simpleValue_all_nonws v hv)
  simp [ht1, ht2]

theorem renderPair_no_comma (kv : List Char × List Char)
    (hk : identOk kv.1 = true) (hv : simpleValueOk kv.2 = true) :
    ∀ x ∈ renderPair kv, x ≠ ',' := by
  intro x hx
  unfold renderPair at hx
  rcases List.mem_append.mp hx with hx | hx
  · exact identChar_ne x ((identOk_parts kv.1 hk).2 x hx) ',' (by decide)
  · rcases List.mem_cons.mp hx with rfl | hx
    · decide
    · rcases List.mem_cons.mp hx with rfl | hx
      · decide
      · exact (simpleValueChar_parts x ((simpleValueOk_parts kv.2 hv).2.1 x hx)).1

theorem parse_simple_value_of_ok (v : List Char) (hv : simpleValueOk v = true) :
    parse_simple_value v = .returned (parsedValue v) := by
  obtain ⟨hvne, hvall, hq1, hq2⟩ := simpleValueOk_parts v hv
  have ht : trimChars v = v := trimChars_all_nonws v (simpleValue_all_nonws v hv)
  exact parse_simple_value_returns v (by rw [ht]; exact hq1) (by rw [ht]; exact hq2)

theorem extract_properties_loop_render (kvs : List (List Char × List Char)) :
    ∀ sp, (sp = [] ∨ sp = [' ']) → kvs ≠ [] →
    (∀ kv ∈ kvs, identOk kv.1 = true) →
    (∀ kv ∈ kvs, simpleValueOk kv.2 = true) →
    extract_properties_loop (splitOnChar ',' (sp ++ renderProps kvs)) =
      .returned (kvs.map (fun kv => (⟨kv.1⟩ : Ident)),
        kvs.map (fun kv => parsedValue kv.2)) := by
  induction kvs with
  | nil => intro sp _ hne _ _; exact absurd rfl hne
  | cons kv rest ih =>
    intro sp hsp _ hkeys hvals
    have hk := hkeys kv (List.mem_cons_self _ _)
    have hv := hvals kv (List.mem_cons_self _ _)
    have htk : trimChars kv.1 = kv.1 := trimChars_all_nonws _ (ident_all_nonws _ hk)
    have htv : trimChars kv.2 = kv.2 := trimChars_all_nonws _ (simpleValue_all_nonws _ hv)
    have hchunk : (splitOnChar ':' (sp ++ renderPair kv)).map trimChars =
        [kv.1, kv.2] := chunk_split sp kv.1 kv.2 hsp hk hv
    have hpret : parse_simple_value kv.2 = .returned (parsedValue kv.2) :=
      parse_simple_value_of_ok kv.2 hv
    cases rest with
    | nil =>
      have hnm : ∀ x ∈ sp ++ renderPair kv, x ≠ ',' := by
        intro x hx
        rcases List.mem_append.mp hx with hx | hx
        · rcases hsp with rfl | rfl
          · simp at hx
          · have hx0 : x = ' ' := by simpa using hx
            subst hx0; decide
        · exact renderPair_no_comma kv hk hv x hx
      have hr : renderProps [kv] = renderPair kv := rfl
      rw [hr, splitOnChar_not_mem ',' _ hnm]
      unfold extract_properties_loop
      rw [hchunk]
      simp only [htk, htv, hpret, extract_properties_loop]
      simp
    | cons kv2 rest2 =>
      have hr : renderProps (kv :: kv2 :: rest2) =
          renderPair kv ++ ',' :: (' ' :: renderProps (kv2 :: rest2)) := rfl
      have hshape : sp ++ (renderPair kv ++ ',' :: (' ' :: renderProps (kv2 :: rest2))) =
          (sp ++ renderPair kv) ++ ',' :: (' ' :: renderProps (kv2 :: rest2)) := by
        simp
      have hnm : ∀ x ∈ sp ++ renderPair kv, x ≠ ',' := by
        intro x hx
        rcases List.mem_append.mp hx with hx | hx
        · rcases hsp with rfl | rfl
          · simp at hx
          · have hx0 : x = ' ' := by simpa using hx
            subst hx0; decide
        · exact renderPair_no_comma kv hk hv x hx
      rw [hr, hshape, splitOnChar_append ',' _ _ hnm]
      have ih2 := ih [' '] (Or.inr rfl) (by simp)
        (fun z hz => hkeys z (List.mem_cons_of_mem kv hz))
        (fun z hz => hvals z (List.mem_cons_of_mem kv hz))
      have hsp2 : ' ' :: renderProps (kv2 :: rest2) =
          [' '] ++ renderProps (kv2 :: rest2) := rfl
      unfold extract_properties_loop
      rw [hchunk]
      simp only [htk, htv, hpret]
      rw [hsp2, ih2]
      simp

theorem mk_prefix_no_char (var label : List Char)
    (hvar : ∀ x ∈ var, isIdentChar x = true)
    (hlab : ∀ x ∈ label, isIdentChar x = true)
    (d : Char) (hd : isIdentChar d = false)
    (h1 : '(' ≠ d) (h2 : ':' ≠ d) (h3 : ' ' ≠ d) :
    ∀ x ∈ ('(' :: var) ++ ((':' :: label) ++ [' ']), x ≠ d := by
  intro x hx
  rcases List.mem_append.mp hx with hx | hx
  · rcases List.mem_cons.mp hx with rfl | hx
    · exact h1
    · exact identChar_ne x (hvar x hx) d hd
  · rcases List.mem_append.mp hx with hx | hx
    · rcases List.mem_cons.mp hx with rfl | hx
      · exact h2
      · exact identChar_ne x (hlab x hx) d hd
    · have hx0 : x = ' ' := by simpa using hx
      subst hx0
      exact h3

theorem extract_properties_mk (var label : List Char)
    (kvs : List (List Char × List Char))
    (hvar : ∀ x ∈ var, isIdentChar x = true)
    (hlab : ∀ x ∈ label, isIdentChar x = true)
    (hne : kvs ≠ [])
    (hkeys : ∀ kv ∈ kvs, identOk kv.1 = true)
    (hvals : ∀ kv ∈ kvs, simpleValueOk kv.2 = true) :
    extract_properties (mkCreatePattern var label kvs) =
      .returned (.ok (kvs.map (fun kv => (⟨kv.1⟩ : Ident)),
        kvs.map (fun kv => parsedValue kv.2))) := by
  have hpne : renderProps kvs ≠ [] := renderProps_ne_nil kvs hne
  have hshape : mkCreatePattern var label kvs =
      (('(' :: var) ++ ((':' :: label) ++ [' '])) ++
        '\x7b' :: (renderProps kvs ++ '\x7d' :: [')']) := by
    simp [mkCreatePattern]
  have hfirst : firstIdxOf '\x7b' (mkCreatePattern var label kvs) =
      some (('(' :: var) ++ ((':' :: label) ++ [' '])).length := by
    rw [hshape]
    exact firstIdxOf_append_not_mem _ _ _
      (mk_prefix_no_char var label hvar hlab '\x7b' (by decide) (by decide)
        (by decide) (by decide))
  have hshape2 : mkCreatePattern var label kvs =
      ((('(' :: var) ++ ((':' :: label) ++ [' '])) ++ '\x7b' :: renderProps kvs) ++
        '\x7d' :: [')'] := by
    rw [hshape]
    simp
  have hlast : lastIdxOf '\x7d' (mkCreatePattern var label kvs) =
      some ((('(' :: var) ++ ((':' :: label) ++ [' '])) ++
        '\x7b' :: renderProps kvs).length := by
    rw [hshape2]
    apply lastIdxOf_append_not_mem
    intro x hx
    have hx0 : x = ')' := by simpa using hx
    subst hx0
    decide
  have hlt : ¬ (('(' :: var) ++ ((':' :: label) ++ [' '])).length ≥
      ((('(' :: var) ++ ((':' :: label) ++ [' '])) ++
        '\x7b' :: renderProps kvs).length := by
    simp only [List.length_append, List.length_cons]
    omega
  have harith : ((('(' :: var) ++ ((':' :: label) ++ [' '])) ++
        '\x7b' :: renderProps kvs).length -
      ((('(' :: var) ++ ((':' :: label) ++ [' '])).length + 1) =
      (renderProps kvs).length := by
    simp only [List.length_append, List.length_cons]
    omega
  have hshape3 : mkCreatePattern var label kvs =
      ((('(' :: var) ++ ((':' :: label) ++ [' '])) ++ ['\x7b']) ++
        (renderProps kvs ++ '\x7d' :: [')']) := by
    rw [hshape]
    simp
  have hlen1 : (('(' :: var) ++ ((':' :: label) ++ [' '])).length + 1 =
      ((('(' :: var) ++ ((':' :: label) ++ [' '])) ++ ['\x7b']).length := by
    simp only [List.length_append, List.length_cons, List.length_nil,
      List.length_singleton]
  have hslice : ((mkCreatePattern var label kvs).drop
        ((('(' :: var) ++ ((':' :: label) ++ [' '])).length + 1)).take
      ((((('(' :: var) ++ ((':' :: label) ++ [' '])) ++
        '\x7b' :: renderProps kvs).length) -
        ((('(' :: var) ++ ((':' :: label) ++ [' '])).length + 1)) =
      renderProps kvs := by
    rw [harith, hshape3, hlen1, List.drop_left]
    exact List.take_left _ _
  have htrim : trimChars (renderProps kvs) = renderProps kvs :=
    trimChars_eq_self _ (renderProps_head_nonws kvs hkeys)
      (renderProps_last_nonws kvs hvals)
  have hempty : (renderProps kvs).isEmpty = false := by
    cases hp : renderProps kvs with
    | nil => exact absurd hp hpne
    | cons p ps => rfl
  have hloop : extract_properties_loop (splitOnChar ',' (renderProps kvs)) =
      .returned (kvs.map (fun kv => (⟨kv.1⟩ : Ident)),
        kvs.map (fun kv => parsedValue kv.2)) := by
    have := extract_properties_loop_render kvs [] (Or.inl rfl) hne hkeys hvals
    simpa using this
  unfold extract_properties
  rw [hfirst, hlast]
  simp only [hslice, htrim, hempty, hloop, if_neg hlt]
  rfl

theorem firstIdxOf_eq_none (c : Char) (s : List Char) (h : ∀ x ∈ s, x ≠ c) :
    firstIdxOf c s = none := by
  induction s with
  | nil => rfl
  | cons x xs ih =>
    simp [firstIdxOf, h x (List.mem_cons_self x xs),
      ih (fun y hy => h y (List.mem_cons_of_mem x hy))]

theorem mkMatch_no_char (var label : List Char)
    (hvar : ∀ x ∈ var, isIdentChar x = true)
    (hlab : ∀ x ∈ label, isIdentChar x = true)
    (d : Char) (hd : isIdentChar d = false)
    (h1 : '(' ≠ d) (h2 : ':' ≠ d) (h3 : ')' ≠ d) :
    ∀ x ∈ ('(' :: var) ++ ((':' :: label) ++ [')']), x ≠ d := by
  intro x hx
  rcases List.mem_append.mp hx with hx | hx
  · rcases List.mem_cons.mp hx with rfl | hx
    · exact h1
    · exact identChar_ne x (hvar x hx) d hd
  · rcases List.mem_append.mp hx with hx | hx
    · rcases List.mem_cons.mp hx with rfl | hx
      · exact h2
      · exact identChar_ne x (hlab x hx) d hd
    · have hx0 : x = ')' := by simpa using hx
      subst hx0
      exact h3

theorem label_of_mkCreate (var label : List Char)
    (kvs : List (List Char × List Char))
    (hvar : identOk var = true) (hlab : identOk label = true) :
    extract_first_label (mkCreatePattern var label kvs) = .ok label := by
  have hpc : ∀ x ∈ '(' :: var, x ≠ ':' := by
    intro x hx
    rcases List.mem_cons.mp hx with rfl | hx
    · decide
    · exact identChar_ne x ((identOk_parts var hvar).2 x hx) ':' (by decide)
  have hs : mkCreatePattern var label kvs =
      ('(' :: var) ++ ':' :: (label ++
        (' ' :: '\x7b' :: (renderProps kvs ++ ['\x7d', ')']))) := by
    simp [mkCreatePattern]
  rw [hs]
  exact extract_first_label_of_shape _ _ _ hpc hlab (fun x hx => by
    have hx0 : ' ' = x := by simpa using hx
    subst hx0; decide)

theorem label_of_mkMatch (var : Option (List Char)) (label : List Char)
    (hvar : ∀ v ∈ var, identOk v = true) (hlab : identOk label = true) :
    extract_first_label (mkMatchPattern var label) = .ok label := by
  cases var with
  | none =>
    have hs : mkMatchPattern none label = ['('] ++ ':' :: (label ++ [')']) := by
      simp [mkMatchPattern]
    rw [hs]
    exact extract_first_label_of_shape _ _ _ (by
      intro x hx
      have hx0 : x = '(' := by simpa using hx
      subst hx0; decide) hlab (fun x hx => by
      have hx0 : ')' = x := by simpa using hx
      subst hx0; decide)
  | some v =>
    have hpc : ∀ x ∈ '(' :: v, x ≠ ':' := by
      intro x hx
      rcases List.mem_cons.mp hx with rfl | hx
      · decide
      · exact identChar_ne x ((identOk_parts v (hvar v rfl)).2 x hx) ':' (by decide)
    have hs : mkMatchPattern (some v) label =
        ('(' :: v) ++ ':' :: (label ++ [')']) := by
      simp [mkMatchPattern]
    rw [hs]
    exact extract_first_label_of_shape _ _ _ hpc hlab (fun x hx => by
      have hx0 : ')' = x := by simpa using hx
      subst hx0; decide)

/-- Claim C1 (amended): for every single-node create pattern
`(var:Label \x7bk1: v1, ...\x7d)` with a nonempty property map whose
value literals are simple tokens — holding no comma, colon, brace or
whitespace character, and not a lone quote character (`simpleValueOk`) —
`cypher_create_to_sql` returns an Insert whose table name equals the
label, whose column list equals the property keys in declaration order,
and whose single VALUES row is positionally aligned with the columns,
each value coerced by the source's coercion `parse_simple_value`
(section 4.3 without the float step).  The token restriction is forced
by the counterexample: quoted values holding `,` or `:` are cut apart
by the substring splitting and mangled or dropped. -/
theorem C1_create_insert_shape (var label : List Char)
    (kvs : List (List Char × List Char))
    (hvar : identOk var = true) (hlab : identOk label = true)
    (hne : kvs ≠ [])
    (hkeys : ∀ kv ∈ kvs, identOk kv.1 = true)
    (hvals : ∀ kv ∈ kvs, simpleValueOk kv.2 = true) :
    cypher_create_to_sql (mkCreatePattern var label kvs) =
      .returned (.ok (.insert ⟨label, kvs.map (fun kv => ⟨kv.1⟩),
        [kvs.map (fun kv => parsedValue kv.2)]⟩)) ∧
    ∀ kv ∈ kvs, parse_simple_value kv.2 = .returned (parsedValue kv.2) := by
  constructor
  · have hlabelEq := label_of_mkCreate var label kvs hvar hlab
    have hpropsEq := extract_properties_mk var label kvs
      (identOk_parts var hvar).2 (identOk_parts label hlab).2 hne hkeys hvals
    have hcols : (kvs.map (fun kv => (⟨kv.1⟩ : Ident))).isEmpty = false := by
      cases kvs with
      | nil => exact absurd rfl hne
      | cons a b => rfl
    unfold cypher_create_to_sql
    rw [hlabelEq, hpropsEq]
    simp [hcols]
  · intro kv hkv
    exact parse_simple_value_of_ok kv.2 (hvals kv hkv)

/-- Claim C1, witness: the create pattern
`(n:Person \x7bname: \x27Alice\x27, age: 30\x7d)` translated through the
amended claim. -/
theorem C1_create_insert_shape_witness :
    identOk "n".data = true ∧
    cypher_create_to_sql
        "(n:Person \x7bname: \x27Alice\x27, age: 30\x7d)".data =
      .returned (.ok (.insert ⟨"Person".data,
        [⟨"name".data⟩, ⟨"age".data⟩],
        [[.value (.singleQuotedString "Alice".data),
          .value (.number "30".data false)]]⟩)) :=
  ⟨by decide, by
    have h := (C1_create_insert_shape "n".data "Person".data
      [("name".data, "\x27Alice\x27".data), ("age".data, "30".data)]
      (by decide) (by decide) (by decide)
      (by decide) (by decide)).1
    exact h⟩

/-- Claim C3 (amended): for every create pattern that carries a label,
an absent property map (`(var:Label)`, no brace anywhere) and an
explicitly empty property map (`(var:Label \x7b\x7d)`) both make
`cypher_create_to_sql` fail with an error of the spec's `NoProperties`
kind. -/
theorem C3_labelled_no_props_error (var label : List Char)
    (hvar : identOk var = true) (hlab : identOk label = true) :
    cypher_create_to_sql (mkMatchPattern (some var) label) =
      .returned (.err .noPropsMissingOpenBrace) ∧
    cypher_create_to_sql (mkCreatePattern var label []) =
      .returned (.err .noPropertiesInCreate) ∧
    errKind .noPropsMissingOpenBrace = .noProperties ∧
    errKind .noPropertiesInCreate = .noProperties := by
  refine ⟨?_, ?_, rfl, rfl⟩
  · have hlabelEq := label_of_mkMatch (some var) label (by
      intro v hv
      have hv0 : var = v := by simpa using hv
      subst hv0; exact hvar) hlab
    have hnb : extract_properties (mkMatchPattern (some var) label) =
        .returned (.err .noPropsMissingOpenBrace) := by
      have hnone : firstIdxOf '\x7b' (mkMatchPattern (some var) label) = none := by
        have hs : mkMatchPattern (some var) label =
            ('(' :: var) ++ ((':' :: label) ++ [')']) := by
          simp [mkMatchPattern]
        rw [hs]
        exact firstIdxOf_eq_none _ _
          (mkMatch_no_char var label (identOk_parts var hvar).2
            (identOk_parts label hlab).2 '\x7b' (by decide) (by decide)
            (by decide) (by decide))
      unfold extract_properties
      rw [hnone]
    unfold cypher_create_to_sql
    rw [hlabelEq, hnb]
  · have hlabelEq := label_of_mkCreate var label [] hvar hlab
    have hprops : extract_properties (mkCreatePattern var label []) =
        .returned (.ok ([], [])) := by
      have hshape : mkCreatePattern var label [] =
          (('(' :: var) ++ ((':' :: label) ++ [' '])) ++
            '\x7b' :: ('\x7d' :: [')']) := by
        simp [mkCreatePattern, renderProps]
      have hfirst : firstIdxOf '\x7b' (mkCreatePattern var label []) =
          some (('(' :: var) ++ ((':' :: label) ++ [' '])).length := by
        rw [hshape]
        exact firstIdxOf_append_not_mem _ _ _
          (mk_prefix_no_char var label (identOk_parts var hvar).2
            (identOk_parts label hlab).2 '\x7b' (by decide) (by decide)
            (by decide) (by decide))
      have hshape2 : mkCreatePattern var label [] =
          ((('(' :: var) ++ ((':' :: label) ++ [' '])) ++ ['\x7b']) ++
            '\x7d' :: [')'] := by
        rw [hshape]
        simp
      have hlast : lastIdxOf '\x7d' (mkCreatePattern var label []) =
          some ((('(' :: var) ++ ((':' :: label) ++ [' '])) ++ ['\x7b']).length := by
        rw [hshape2]
        apply lastIdxOf_append_not_mem
        intro x hx
        have hx0 : x = ')' := by simpa using hx
        subst hx0
        decide
      have hlt : ¬ (('(' :: var) ++ ((':' :: label) ++ [' '])).length ≥
          ((('(' :: var) ++ ((':' :: label) ++ [' '])) ++ ['\x7b']).length := by
        simp only [List.length_append, List.length_cons, List.length_nil]
        omega
      have harith : ((('(' :: var) ++ ((':' :: label) ++ [' '])) ++
            ['\x7b']).length -
          ((('(' :: var) ++ ((':' :: label) ++ [' '])).length + 1) = 0 := by
        simp only [List.length_append, List.length_cons, List.length_nil]
        omega
      have hslice : ((mkCreatePattern var label []).drop
            ((('(' :: var) ++ ((':' :: label) ++ [' '])).length + 1)).take
          (((('(' :: var) ++ ((':' :: label) ++ [' '])) ++ ['\x7b']).length -
            ((('(' :: var) ++ ((':' :: label) ++ [' '])).length + 1)) =
          ([] : List Char) := by
        rw [harith]
        simp
      unfold extract_properties
      rw [hfirst, hlast]
      simp only [hslice, if_neg hlt]
      rfl
    unfold cypher_create_to_sql
    rw [hlabelEq, hprops]
    rfl

/-- Claim C3, witness: the amended claim at `(n:Person)` and
`(n:Person \x7b\x7d)`. -/
theorem C3_labelled_no_props_error_witness :
    identOk "n".data = true ∧
    cypher_create_to_sql "(n:Person)".data =
      .returned (.err .noPropsMissingOpenBrace) ∧
    cypher_create_to_sql "(n:Person \x7b\x7d)".data =
      .returned (.err .noPropertiesInCreate) :=
  ⟨by decide, by
    have h := (C3_labelled_no_props_error "n".data "Person".data
      (by decide) (by decide)).1
    exact h, by
    have h := (C3_labelled_no_props_error "n".data "Person".data
      (by decide) (by decide)).2.1
    exact h⟩

/-- Claim C7: for every well-formed pattern carrying a label,
`cypher_to_sql` produces a SELECT whose FROM table name equals the
pattern's label and whose table alias equals the pattern's variable, the
alias being omitted entirely when the pattern has no variable; and for
input `(n:Person)` with a bare reference to `n` as the return item, the
statement prints as `SELECT * FROM Person AS n`. -/
theorem C7_match_select_shape (var label : List Char) (wc : Option Expr)
    (items : List SelectItem)
    (hvar : identOk var = true) (hlab : identOk label = true) :
    cypher_to_sql (mkMatchPattern (some var) label) wc items =
      .ok (.query ⟨convert_return_items items, ⟨label, some ⟨⟨var⟩⟩⟩, wc⟩) ∧
    cypher_to_sql (mkMatchPattern none label) wc items =
      .ok (.query ⟨convert_return_items items, ⟨label, none⟩, wc⟩) ∧
    (∀ kvs : List (List Char × List Char),
      cypher_to_sql (mkCreatePattern var label kvs) wc items =
        .ok (.query ⟨convert_return_items items, ⟨label, some ⟨⟨var⟩⟩⟩, wc⟩)) ∧
    cypher_to_sql "(n:Person)".data none
        [.unnamedExpr (.identifier ⟨"n".data⟩)] =
      .ok (.query ⟨[.wildcard], ⟨"Person".data, some ⟨⟨"n".data⟩⟩⟩, none⟩) ∧
    printStatement
        (.query ⟨[.wildcard], ⟨"Person".data, some ⟨⟨"n".data⟩⟩⟩, none⟩) =
      "SELECT * FROM Person AS n".data := by
  refine ⟨?_, ?_, ?_, rfl, rfl⟩
  · have hlabelEq := label_of_mkMatch (some var) label (by
      intro v hv
      have hv0 : var = v := by simpa using hv
      subst hv0; exact hvar) hlab
    have hvarEq : extract_first_variable (mkMatchPattern (some var) label) =
        some var := by
      have hs : mkMatchPattern (some var) label =
          '(' :: (var ++ (':' :: (label ++ [')']))) := by
        simp [mkMatchPattern]
      rw [hs]
      exact extract_first_variable_of_shape var _ hvar (fun x hx => by
        have hx0 : ':' = x := by simpa using hx
        subst hx0; decide)
    unfold cypher_to_sql
    rw [hlabelEq, hvarEq]
    rfl
  · have hlabelEq := label_of_mkMatch none label (by intro v hv; simp at hv) hlab
    have hvarEq : extract_first_variable (mkMatchPattern none label) = none := by
      have hs : mkMatchPattern none label =
          '(' :: (':' :: (label ++ [')'])) := by
        simp [mkMatchPattern]
      rw [hs]
      exact extract_first_variable_none_of_shape _ (fun x hx => by
        have hx0 : ':' = x := by simpa using hx
        subst hx0; exact ⟨by decide, by decide⟩)
    unfold cypher_to_sql
    rw [hlabelEq, hvarEq]
    rfl
  · intro kvs
    have hlabelEq := label_of_mkCreate var label kvs hvar hlab
    have hvarEq : extract_first_variable (mkCreatePattern var label kvs) =
        some var := by
      have hs : mkCreatePattern var label kvs =
          '(' :: (var ++ (':' :: (label ++
            (' ' :: '\x7b' :: (renderProps kvs ++ ['\x7d', ')']))))) := by
        simp [mkCreatePattern]
      rw [hs]
      exact extract_first_variable_of_shape var _ hvar (fun x hx => by
        have hx0 : ':' = x := by simpa using hx
        subst hx0; decide)
    unfold cypher_to_sql
    rw [hlabelEq, hvarEq]
    rfl

/-- Claim C7, witness: the shape claim at variable `n` and label
`Person`, with and without a variable. -/
theorem C7_match_select_shape_witness :
    identOk "n".data = true ∧
    cypher_to_sql "(n:Person)".data none [] =
      .ok (.query ⟨[], ⟨"Person".data, some ⟨⟨"n".data⟩⟩⟩, none⟩) ∧
    cypher_to_sql "(:Person)".data none [] =
      .ok (.query ⟨[], ⟨"Person".data, none⟩, none⟩) :=
  ⟨by decide, by
    have h := (C7_match_select_shape "n".data "Person".data none []
      (by decide) (by decide)).1
    exact h, by
    have h := (C7_match_select_shape "n".data "Person".data none []
      (by decide) (by decide)).2.1
    exact h⟩

/-- Claim C4 (amended): in the projection conversion of `cypher_to_sql`,
a projection item that is a bare identifier reference — whether or not it
names the pattern's variable — expands to a wildcard projection, and
every projection item that is not a bare identifier passes through
unchanged, position by position. -/
theorem C4_bare_identifier_wildcard (p : List Char) (wc : Option Expr)
    (items : List SelectItem) (s : Select)
    (h : cypher_to_sql p wc items = .ok (.query s)) :
    s.projection.length = items.length ∧
    (∀ (k : Nat) (i : Ident),
      items[k]? = some (SelectItem.unnamedExpr (Expr.identifier i)) →
      s.projection[k]? = some SelectItem.wildcard) ∧
    (∀ (k : Nat) (item : SelectItem), items[k]? = some item →
      (∀ i, item ≠ SelectItem.unnamedExpr (Expr.identifier i)) →
      s.projection[k]? = some item) := by
  have hs : s.projection = convert_return_items items := by
    unfold cypher_to_sql at h
    split at h
    · cases h
    · simp only [Res.ok.injEq, Statement.query.injEq] at h
      rw [← h]
      rfl
  refine ⟨?_, ?_, ?_⟩
  · rw [hs]
    simp [convert_return_items]
  · intro k i hk
    rw [hs]
    simp only [convert_return_items, List.getElem?_map, hk, Option.map_some']
  · intro k item hk hni
    rw [hs]
    simp only [convert_return_items, List.getElem?_map, hk, Option.map_some']
    congr 1
    cases item with
    | wildcard => rfl
    | exprWithAlias e a => rfl
    | unnamedExpr e =>
      cases e with
      | identifier i => exact absurd rfl (hni i)
      | value v => rfl
      | compoundIdentifier is => rfl

/-- Claim C4, witness: the amended projection rule applied to the
pattern `(n:Person)` with the single return item `n`. -/
theorem C4_bare_identifier_wildcard_witness :
    cypher_to_sql "(n:Person)".data none
        [SelectItem.unnamedExpr (Expr.identifier ⟨"n".data⟩)] =
      .ok (.query ⟨[SelectItem.wildcard],
        ⟨"Person".data, some ⟨⟨"n".data⟩⟩⟩, none⟩) ∧
    (Select.mk [SelectItem.wildcard] ⟨"Person".data, some ⟨⟨"n".data⟩⟩⟩
        none).projection[0]? = some SelectItem.wildcard :=
  ⟨rfl,
    (C4_bare_identifier_wildcard "(n:Person)".data none
      [SelectItem.unnamedExpr (Expr.identifier ⟨"n".data⟩)]
      ⟨[SelectItem.wildcard], ⟨"Person".data, some ⟨⟨"n".data⟩⟩⟩, none⟩
      rfl).2.1 0 ⟨"n".data⟩ rfl⟩

theorem extract_properties_loop_length (l : List (List Char)) :
    ∀ cs vs, extract_properties_loop l = .returned (cs, vs) →
      cs.length = vs.length := by
  induction l with
  | nil =>
    intro cs vs h
    simp only [extract_properties_loop, Outcome.returned.injEq,
      Prod.mk.injEq] at h
    obtain ⟨h1, h2⟩ := h
    subst h1
    subst h2
    rfl
  | cons pair rest ih =>
    intro cs vs h
    unfold extract_properties_loop at h
    split at h
    · split at h
      · exact absurd h (by simp)
      · split at h
        · exact absurd h (by simp)
        · rename_i heq
          simp only [Outcome.returned.injEq, Prod.mk.injEq] at h
          obtain ⟨h1, h2⟩ := h
          subst h1
          subst h2
          simp only [List.length_cons]
          rw [ih _ _ heq]
    · exact ih cs vs h

/-- Claim C10: whenever `extract_properties` returns successfully, the
column list and the value list have equal length, and therefore every
Insert built by `cypher_create_to_sql` has its column list and its single
VALUES row positionally aligned one-to-one (including inputs containing
pairs skipped during extraction). -/
theorem C10_columns_values_aligned :
    (∀ p cs vs, extract_properties p = .returned (.ok (cs, vs)) →
      cs.length = vs.length) ∧
    (∀ p ins, cypher_create_to_sql p = .returned (.ok (.insert ins)) →
      ∃ row, ins.rows = [row] ∧ ins.columns.length = row.length) := by
  have hpart1 : ∀ p cs vs,
      extract_properties p = .returned (.ok (cs, vs)) →
      cs.length = vs.length := by
    intro p cs vs h
    unfold extract_properties at h
    split at h
    · simp at h
    · split at h
      · simp at h
      · split at h
        · simp at h
        · split at h
          · simp only [Outcome.returned.injEq, Res.ok.injEq,
              Prod.mk.injEq] at h
            obtain ⟨h1, h2⟩ := h
            subst h1
            subst h2
            rfl
          · split at h
            · simp at h
            · rename_i heq
              simp only [Outcome.returned.injEq, Res.ok.injEq,
                Prod.mk.injEq] at h
              obtain ⟨h1, h2⟩ := h
              subst h1
              subst h2
              exact extract_properties_loop_length _ _ _ heq
  refine ⟨hpart1, ?_⟩
  intro p ins h
  unfold cypher_create_to_sql at h
  split at h
  · simp at h
  · split at h
    · simp at h
    · simp at h
    · rename_i heq
      split at h
      · simp at h
      · rename_i hcols
        simp only [Outcome.returned.injEq, Res.ok.injEq,
          Statement.insert.injEq] at h
        subst h
        refine ⟨_, rfl, ?_⟩
        exact hpart1 _ _ _ heq

/-- Claim C10, witness: the alignment at the create pattern
`(n:Person \x7bname, age: 30\x7d)`, whose malformed first pair is
skipped. -/
theorem C10_columns_values_aligned_witness :
    extract_properties "(n:Person \x7bname, age: 30\x7d)".data =
      .returned (.ok ([⟨"age".data⟩], [.value (.number "30".data false)])) ∧
    ([(⟨"age".data⟩ : Ident)]).length =
      ([Expr.value (.number "30".data false)]).length ∧
    (∃ row,
      (InsertStmt.mk "Person".data [⟨"age".data⟩]
        [[.value (.number "30".data false)]]).rows = [row] ∧
      (InsertStmt.mk "Person".data [⟨"age".data⟩]
        [[.value (.number "30".data false)]]).columns.length = row.length) :=
  ⟨rfl, C10_columns_values_aligned.1 "(n:Person \x7bname, age: 30\x7d)".data
      [⟨"age".data⟩] [.value (.number "30".data false)] rfl,
    C10_columns_values_aligned.2 "(n:Person \x7bname, age: 30\x7d)".data
      (InsertStmt.mk "Person".data [⟨"age".data⟩]
        [[.value (.number "30".data false)]]) rfl⟩

end CypherToSql
